import Mathlib

set_option maxHeartbeats 1000000

/-!
# Verification of the eaciest ECS runtime's change-tracking core

Shallow embedding of the entity/system/engine logic of the eaciest
entity-component-system library, together with proofs about its
membership-maintenance behaviour.

Conventions of the embedding:
* A JavaScript `Set` is modelled as an insertion-ordered duplicate-free
  `List`, with `setAdd` / `setDelete` / `setHas` mirroring
  `Set.prototype.add` / `delete` / `has`.
* An entity is identified by a natural number (object identity); the data a
  requirement test can observe is the entity's current component-key set,
  modelled as `PropKeys := List String`.  A world `Nat → PropKeys` gives each
  entity its current keys.
* Requirement constraints (`system.ts`) are either a component key
  (presence test, `predicate in entity`) or an arbitrary predicate function.
-/

namespace Eaciest

/-! ## JS `Set` primitives -/

/-- `Set.prototype.add`: append unless already present. -/
def setAdd {α} [DecidableEq α] (s : List α) (x : α) : List α :=
  if x ∈ s then s else s ++ [x]

/-- `Set.prototype.delete`: remove the element. -/
def setDelete {α} [DecidableEq α] (s : List α) (x : α) : List α :=
  s.filter (fun y => y ≠ x)

/-- `Set.prototype.has`. -/
def setHas {α} [DecidableEq α] (s : List α) (x : α) : Bool :=
  decide (x ∈ s)

theorem mem_setAdd {α} [DecidableEq α] {s : List α} {x a : α} :
    a ∈ setAdd s x ↔ a ∈ s ∨ a = x := by
  unfold setAdd
  split
  · constructor
    · exact Or.inl
    · rintro (h | rfl) <;> assumption
  · simp [List.mem_append]

theorem mem_setDelete {α} [DecidableEq α] {s : List α} {x a : α} :
    a ∈ setDelete s x ↔ a ∈ s ∧ a ≠ x := by
  unfold setDelete
  simp

theorem setHas_iff {α} [DecidableEq α] {s : List α} {x : α} :
    setHas s x = true ↔ x ∈ s := by
  simp [setHas]

theorem setHas_setAdd_self {α} [DecidableEq α] (s : List α) (x : α) :
    setHas (setAdd s x) x = true := by
  rw [setHas_iff, mem_setAdd]; exact Or.inr rfl

theorem setHas_setDelete_self {α} [DecidableEq α] (s : List α) (x : α) :
    setHas (setDelete s x) x = false := by
  rw [Bool.eq_false_iff]
  intro h
  rw [setHas_iff, mem_setDelete] at h
  exact h.2 rfl

theorem setHas_setAdd_other {α} [DecidableEq α] (s : List α) {x a : α} (h : a ≠ x) :
    setHas (setAdd s x) a = setHas s a := by
  simp only [setHas, decide_eq_decide, mem_setAdd]
  constructor
  · rintro (hm | rfl)
    · exact hm
    · exact absurd rfl h
  · exact Or.inl

theorem setHas_setDelete_other {α} [DecidableEq α] (s : List α) {x a : α} (h : a ≠ x) :
    setHas (setDelete s x) a = setHas s a := by
  simp only [setHas, decide_eq_decide, mem_setDelete]
  constructor
  · exact And.left
  · exact fun hm => ⟨hm, h⟩

theorem count_setAdd_self {α} [DecidableEq α] (s : List α) (x : α) (h : x ∉ s) :
    (setAdd s x).count x = 1 := by
  unfold setAdd
  rw [if_neg h, List.count_append]
  simp [List.count_eq_zero.mpr h]

/-! ## Entities and requirement constraints -/

/-- The component keys currently present on an entity. -/
abbrev PropKeys := List String

/-- A requirement-list constraint (`TEntityRequirementConstraint`): a
component key (string or symbol; both modelled as `String`) meaning
"the key is present", or an arbitrary predicate over the entity. -/
inductive Constraint where
  | key (k : String)
  | pred (p : PropKeys → Bool)

/-- Direct evaluation of one constraint on an entity's current keys:
a key constraint is `predicate in entity`, a function constraint is
applied as-is. -/
def evalConstraint (ks : PropKeys) : Constraint → Bool
  | .key k => decide (k ∈ ks)
  | .pred p => p ks

/-- One step of the compiler in `System._getTestFunction`: strings and
symbols become presence tests, functions pass through.  (Any other value
would map to `undefined` and be dropped by the subsequent `.filter`;
such values are unrepresentable in `Constraint`.) -/
def toTest : Constraint → Option (PropKeys → Bool)
  | .key k => some (fun ks => decide (k ∈ ks))
  | .pred p => some p

/-- The `tests` array built inside `System._getTestFunction`:
`requirementList.map(...).filter(x => !!x)`. -/
def compileTests (req : List Constraint) : List (PropKeys → Bool) :=
  req.filterMap toTest

/-- The combined predicate `testFn` returned by `System._getTestFunction`:
`tests.every(test => test(entity))`. -/
def testFn (req : List Constraint) (ks : PropKeys) : Bool :=
  (compileTests req).all (fun t => t ks)

/-- The compiled combined predicate is the logical AND of the individual
constraint results. -/
theorem testFn_eq_all (req : List Constraint) (ks : PropKeys) :
    testFn req ks = req.all (evalConstraint ks) := by
  induction req with
  | nil => rfl
  | cons c rest ih =>
    have hstep : testFn (c :: rest) ks = (evalConstraint ks c && testFn rest ks) := by
      cases c <;> rfl
    rw [hstep, ih, List.all_cons]

/-! ## C1: list-shaped requirement membership (`src/system.ts`)

`System.refreshEntityStatus`, single-collection branch: the system's
entity store is one JS `Set`; the entity is added when the compiled test
passes and removed otherwise.  `addEntity` is `this._entityStore.add(entity)`
and `removeEntity` sweeps the single collection. -/

namespace ListShape

/-- `System.addEntity` for a list-shaped requirement: `Set.add`. -/
def addEntity (store : List Nat) (e : Nat) : List Nat :=
  setAdd store e

/-- `System.removeEntity` (no collection name) for a list-shaped
requirement: the single collection is swept, deleting the entity. -/
def removeEntity (store : List Nat) (e : Nat) : List Nat :=
  setDelete store e

/-- `System.refreshEntityStatus`, single-collection branch: evaluate the
compiled test for the requirement list on the entity's current keys and
add or remove accordingly. -/
def refreshEntityStatus (w : Nat → PropKeys) (req : List Constraint)
    (store : List Nat) (e : Nat) : List Nat :=
  if testFn req (w e) then addEntity store e else removeEntity store e

end ListShape

/-- C1: for every entity `e` and list-shaped requirement `req`, after
`refreshEntityStatus` has processed a recompute signal for `e`, the entity
is a member of the system's entity set iff every constraint in `req`
(key constraints as presence tests, function constraints as-is) evaluates
to true on the entity's current component set. -/
theorem C1_list_membership_iff (w : Nat → PropKeys) (req : List Constraint)
    (store : List Nat) (e : Nat) :
    e ∈ ListShape.refreshEntityStatus w req store e
      ↔ req.all (evalConstraint (w e)) = true := by
  unfold ListShape.refreshEntityStatus
  rw [← testFn_eq_all]
  split
  · rename_i h
    simp only [h, iff_true, ListShape.addEntity]
    exact mem_setAdd.mpr (Or.inr rfl)
  · rename_i h
    simp only [h]
    constructor
    · intro hm
      exact absurd (mem_setDelete.mp hm).2 (by simp)
    · intro hfalse
      cases hfalse

/-! ## The map-shaped system (`system.ts`, latest revision)

The latest `System` keeps a named map of collections: its requirement is a
`Record<string, TEntityRequirementList>` (or `null` for a global system) and
its entity store one JS `Set` per collection name, with the same keys as the
requirement (`_initEntities`).  We fuse the two equally-keyed records into
one list of `Coll` values carrying name, requirement list and member set. -/

/-- Hook invocations observable on a system: `onEntityAdded` /
`onEntityRemoved`, each with the collection name it was called for. -/
inductive HookEv where
  | added (collectionName : String)
  | removed (collectionName : String)
deriving DecidableEq

/-- One named collection: its requirement list and its entity `Set`. -/
structure Coll where
  name : String
  req : List Constraint
  members : List Nat

/-- A registered system.  `colls = none` models `requirements === null`
(a global system with no entity store).  `throws` abstracts whether the
system's `update()` body raises an exception; `updCount` counts how many
times the engine has invoked `update()`. -/
structure Sys where
  colls : Option (List Coll)
  enabled : Bool := true
  throws : Bool := false
  updCount : Nat := 0

/-- `System.addEntity(entity, collectionName)` on one collection:
if the `Set` does not have the entity, add it and fire `onEntityAdded`. -/
def collAdd (e : Nat) (c : Coll) : Coll × List HookEv :=
  if setHas c.members e then (c, [])
  else ({ c with members := setAdd c.members e }, [.added c.name])

/-- `System.removeEntity(entity, collectionName)` on one collection:
if the `Set` has the entity, delete it and fire `onEntityRemoved` with the
collection name. -/
def collRemove (e : Nat) (c : Coll) : Coll × List HookEv :=
  if setHas c.members e then
    ({ c with members := setDelete c.members e }, [.removed c.name])
  else (c, [])

/-- The per-collection body of `System.refreshEntityStatus`: test the
entity against the collection's requirement list and add or remove it. -/
def collRefresh (w : Nat → PropKeys) (e : Nat) (c : Coll) : Coll × List HookEv :=
  if testFn c.req (w e) then collAdd e c else collRemove e c

/-- `System.refreshEntityStatus(entity)`: a no-op for a global system,
otherwise every collection is re-tested and updated. -/
def sysRefresh (w : Nat → PropKeys) (e : Nat) (s : Sys) : Sys × List HookEv :=
  match s.colls with
  | none => (s, [])
  | some cs =>
    let rs := cs.map (collRefresh w e)
    ({ s with colls := some (rs.map (·.1)) }, (rs.map (·.2)).flatten)

/-- `System.removeEntity(entity)` with no collection name (full sweep):
returns immediately when there is no entity store, otherwise removes the
entity from each collection that has it, firing `onEntityRemoved` once per
such collection. -/
def sysRemoveAll (e : Nat) (s : Sys) : Sys × List HookEv :=
  match s.colls with
  | none => (s, [])
  | some cs =>
    let rs := cs.map (collRemove e)
    ({ s with colls := some (rs.map (·.1)) }, (rs.map (·.2)).flatten)

/-- `System.isQualifiedForUpdate()`: a system with no entity store is
global and always qualified; otherwise some collection must be non-empty. -/
def Sys.isQualified (s : Sys) : Bool :=
  match s.colls with
  | none => true
  | some cs => cs.any (fun c => !c.members.isEmpty)

/-- Membership of an entity in the system's collection of a given name
(the first collection with that name, as in a JS record). -/
def Sys.memb (s : Sys) (name : String) (e : Nat) : Bool :=
  match s.colls with
  | none => false
  | some cs =>
    match cs.find? (fun c => decide (c.name = name)) with
    | some c => setHas c.members e
    | none => false

/-- The requirement test an entity's key set `ks` would have to pass for
the named collection of `s` (false when the system is global or has no
such collection — in those cases membership is identically false). -/
def Sys.testAt (s : Sys) (name : String) (ks : PropKeys) : Bool :=
  match s.colls with
  | none => false
  | some cs =>
    match cs.find? (fun c => decide (c.name = name)) with
    | some c => testFn c.req ks
    | none => false

/-! ## The engine (`engine.ts`, latest revision)

State of an `Engine`: the live entity `Set`, registered systems, the
pending-refresh and pending-add queues (JS `Set`s), the configuration
flag `lazyEntityRefresh`, and the per-entity component state (`world`).
`dt` records the last tick's delta-time.  The transient
deleted/changed-prop records of an entity carry values only; membership
tests observe the current key set, so they are not part of this model. -/

structure Eng where
  world : Nat → PropKeys
  live : List Nat := []
  systems : List Sys := []
  refreshQueue : List Nat := []
  addQueue : List Nat := []
  lazyRefresh : Bool := true
  dt : Nat := 0

/-- Engine-level events observable during one `update(dt)` tick. -/
inductive Ev where
  | addedToLive (e : Nat)
  | refreshed (e : Nat)
  | sysUpdated (i : Nat)
deriving DecidableEq

/-- `Engine.refreshEntity(entity)`: drop the entity from the refresh
queue and run `refreshEntityStatus` of every registered system on it.
(The source then clears the entity's transient deleted-props record,
which carries values only and is outside this membership model.) -/
def engRefreshEntity (E : Eng) (e : Nat) : Eng :=
  { E with refreshQueue := setDelete E.refreshQueue e,
           systems := E.systems.map (fun s => (sysRefresh E.world e s).1) }

/-- `Engine._markEntityChanged(entity)`: enqueue when
`options.lazyEntityRefresh` is set, refresh immediately otherwise. -/
def engMarkChanged (E : Eng) (e : Nat) : Eng :=
  if E.lazyRefresh then { E with refreshQueue := setAdd E.refreshQueue e }
  else engRefreshEntity E e

/-- One iteration of the `Engine.processAddQueue` loop: move the entity
into the live set and mark it changed. -/
def engAddStep (E : Eng) (e : Nat) : Eng :=
  engMarkChanged { E with live := setAdd E.live e } e

/-- `Engine.processAddQueue()`: drain the add queue (each queued entity
is added to the live set and marked changed), then clear it.  The second
component is the list of events the drain produces: one `addedToLive` per
queued entity, followed by a `refreshed` event when `_markEntityChanged`
refreshes immediately (non-lazy configuration). -/
def engProcessAddQueue (E : Eng) : Eng × List Ev :=
  ({ E.addQueue.foldl engAddStep E with addQueue := [] },
   (E.addQueue.map (fun e =>
     Ev.addedToLive e :: if E.lazyRefresh then [] else [Ev.refreshed e])).flatten)

/-- `Engine.processChangedQueue()`: iterate the refresh queue, running
`refreshEntity` on each queued entity.  `refreshEntity` deletes the
visited entity from the queue and enqueues nothing, so the JS `Set`
iteration visits exactly the entities present when the drain starts;
the drain is the fold of `engRefreshEntity` over that snapshot. -/
def engProcessChangedQueue (E : Eng) : Eng × List Ev :=
  (E.refreshQueue.foldl engRefreshEntity E, E.refreshQueue.map Ev.refreshed)

/-- `Engine.updateSystem(system)`: skip unless the system is enabled and
qualified; otherwise invoke its `update`, and when it throws, report the
error (not propagated — the result is always a defined state) and set
`enabled = false`. -/
def updateSystem (s : Sys) : Sys :=
  if s.enabled && s.isQualified then
    if s.throws then { s with updCount := s.updCount + 1, enabled := false }
    else { s with updCount := s.updCount + 1 }
  else s

/-- The per-system pass at the end of `Engine.update`: each registered
system goes through `updateSystem` (which touches only that system), in
list order; a `sysUpdated` event is recorded for each system whose
`update` is actually invoked. -/
def engUpdatePhase (E : Eng) : Eng × List Ev :=
  ({ E with systems := E.systems.map updateSystem },
   E.systems.enum.filterMap (fun p =>
     if p.2.enabled && p.2.isQualified then some (Ev.sysUpdated p.1) else none))

/-- `Engine.update(dt)`: record `dt`, drain the add queue, drain the
refresh queue, then run the per-system pass. -/
def engUpdate (E : Eng) (dt : Nat) : Eng × List Ev :=
  let r1 := engProcessAddQueue { E with dt := dt }
  let r2 := engProcessChangedQueue r1.1
  let r3 := engUpdatePhase r2.1
  (r3.1, r1.2 ++ r2.2 ++ r3.2)

/-- `Engine.removeEntity(entity)`: delete the entity from the live set
and both queues, then have every system sweep it from all collections.
(The source also clears the entity's engine backreference, which this
single-engine model does not track.)  The second component records each
system's `onEntityRemoved` invocations, by system position. -/
def engRemoveEntity (E : Eng) (e : Nat) : Eng × List (List HookEv) :=
  let rs := E.systems.map (sysRemoveAll e)
  ({ E with live := setDelete E.live e,
            refreshQueue := setDelete E.refreshQueue e,
            addQueue := setDelete E.addQueue e,
            systems := rs.map (·.1) },
   rs.map (·.2))

/-- Membership of entity `e` in collection `name` of the system at
position `i` of the engine's system list. -/
def engMemb (E : Eng) (i : Nat) (name : String) (e : Nat) : Bool :=
  match E.systems[i]? with
  | some s => s.memb name e
  | none => false

/-! ## Membership characterization lemmas -/

theorem collRefresh_name (w : Nat → PropKeys) (e : Nat) (c : Coll) :
    (collRefresh w e c).1.name = c.name := by
  unfold collRefresh collAdd collRemove
  split <;> split <;> rfl

theorem collRefresh_req (w : Nat → PropKeys) (e : Nat) (c : Coll) :
    (collRefresh w e c).1.req = c.req := by
  unfold collRefresh collAdd collRemove
  split <;> split <;> rfl

theorem collRefresh_memb_self (w : Nat → PropKeys) (e : Nat) (c : Coll) :
    setHas (collRefresh w e c).1.members e = testFn c.req (w e) := by
  unfold collRefresh collAdd collRemove
  split
  · rename_i ht
    rw [ht]
    split
    · assumption
    · exact setHas_setAdd_self _ _
  · rename_i ht
    rw [Bool.not_eq_true] at ht
    rw [ht]
    split
    · exact setHas_setDelete_self _ _
    · rename_i h2
      rwa [Bool.not_eq_true] at h2

theorem collRefresh_memb_other (w : Nat → PropKeys) (e : Nat) (c : Coll)
    {e' : Nat} (h : e' ≠ e) :
    setHas (collRefresh w e c).1.members e' = setHas c.members e' := by
  unfold collRefresh collAdd collRemove
  split <;> split <;> first
    | rfl
    | exact setHas_setAdd_other _ h
    | exact setHas_setDelete_other _ h

theorem collRemove_name (e : Nat) (c : Coll) : (collRemove e c).1.name = c.name := by
  unfold collRemove; split <;> rfl

theorem collRemove_req (e : Nat) (c : Coll) : (collRemove e c).1.req = c.req := by
  unfold collRemove; split <;> rfl

theorem collRemove_memb_self (e : Nat) (c : Coll) :
    setHas (collRemove e c).1.members e = false := by
  unfold collRemove
  split
  · exact setHas_setDelete_self _ _
  · rename_i h2
    rwa [Bool.not_eq_true] at h2

theorem find?_name_map (cs : List Coll) (f : Coll → Coll)
    (hf : ∀ c, (f c).name = c.name) (name : String) :
    (cs.map f).find? (fun c => decide (c.name = name))
      = (cs.find? (fun c => decide (c.name = name))).map f := by
  have hp : ((fun c => decide (c.name = name)) ∘ f)
      = (fun (c : Coll) => decide (c.name = name)) := by
    funext c
    simp [Function.comp, hf]
  rw [List.find?_map, hp]

theorem sysRefresh_colls_map (w : Nat → PropKeys) (e : Nat) (s : Sys) (cs : List Coll)
    (h : s.colls = some cs) :
    (sysRefresh w e s).1.colls = some (cs.map (fun c => (collRefresh w e c).1)) := by
  unfold sysRefresh
  rw [h]
  simp [List.map_map, Function.comp]

theorem sysRefresh_memb_self (w : Nat → PropKeys) (e : Nat) (s : Sys) (name : String) :
    (sysRefresh w e s).1.memb name e = s.testAt name (w e) := by
  cases hc : s.colls with
  | none =>
    have h1 : (sysRefresh w e s).1 = s := by
      unfold sysRefresh
      rw [hc]
    rw [h1]
    unfold Sys.memb Sys.testAt
    rw [hc]
  | some cs =>
    unfold Sys.memb Sys.testAt
    rw [sysRefresh_colls_map w e s cs hc, hc]
    dsimp only
    rw [find?_name_map cs _ (fun c => collRefresh_name w e c) name]
    cases cs.find? (fun c => decide (c.name = name)) with
    | none => rfl
    | some c => exact collRefresh_memb_self w e c

theorem sysRefresh_memb_other (w : Nat → PropKeys) (e : Nat) (s : Sys) (name : String)
    {e' : Nat} (h : e' ≠ e) :
    (sysRefresh w e s).1.memb name e' = s.memb name e' := by
  cases hc : s.colls with
  | none =>
    have h1 : (sysRefresh w e s).1 = s := by
      unfold sysRefresh
      rw [hc]
    rw [h1]
  | some cs =>
    unfold Sys.memb
    rw [sysRefresh_colls_map w e s cs hc, hc]
    dsimp only
    rw [find?_name_map cs _ (fun c => collRefresh_name w e c) name]
    cases cs.find? (fun c => decide (c.name = name)) with
    | none => rfl
    | some c => exact collRefresh_memb_other w e c h

theorem sysRefresh_testAt (w : Nat → PropKeys) (e : Nat) (s : Sys) (name : String)
    (ks : PropKeys) :
    (sysRefresh w e s).1.testAt name ks = s.testAt name ks := by
  cases hc : s.colls with
  | none =>
    have h1 : (sysRefresh w e s).1 = s := by
      unfold sysRefresh
      rw [hc]
    rw [h1]
  | some cs =>
    unfold Sys.testAt
    rw [sysRefresh_colls_map w e s cs hc, hc]
    dsimp only
    rw [find?_name_map cs _ (fun c => collRefresh_name w e c) name]
    cases cs.find? (fun c => decide (c.name = name)) with
    | none => rfl
    | some c => simp [collRefresh_req]

theorem sysRefresh_enabled (w : Nat → PropKeys) (e : Nat) (s : Sys) :
    (sysRefresh w e s).1.enabled = s.enabled := by
  unfold sysRefresh
  cases s.colls <;> rfl

theorem sysRefresh_updCount (w : Nat → PropKeys) (e : Nat) (s : Sys) :
    (sysRefresh w e s).1.updCount = s.updCount := by
  unfold sysRefresh
  cases s.colls <;> rfl

/-- The requirement test at a system position of the engine (false when
the position, collection or store is absent). -/
def engTestAt (E : Eng) (i : Nat) (name : String) (ks : PropKeys) : Bool :=
  match E.systems[i]? with
  | some s => s.testAt name ks
  | none => false

theorem engRefreshEntity_memb_self (E : Eng) (e : Nat) (i : Nat) (name : String) :
    engMemb (engRefreshEntity E e) i name e = engTestAt E i name (E.world e) := by
  unfold engMemb engTestAt engRefreshEntity
  simp only [List.getElem?_map]
  cases E.systems[i]? with
  | none => rfl
  | some s => exact sysRefresh_memb_self E.world e s name

theorem engRefreshEntity_memb_other (E : Eng) (e : Nat) (i : Nat) (name : String)
    {e' : Nat} (h : e' ≠ e) :
    engMemb (engRefreshEntity E e) i name e' = engMemb E i name e' := by
  unfold engMemb engRefreshEntity
  simp only [List.getElem?_map]
  cases E.systems[i]? with
  | none => rfl
  | some s => exact sysRefresh_memb_other E.world e s name h

theorem engRefreshEntity_testAt (E : Eng) (e : Nat) (i : Nat) (name : String)
    (ks : PropKeys) :
    engTestAt (engRefreshEntity E e) i name ks = engTestAt E i name ks := by
  unfold engTestAt engRefreshEntity
  simp only [List.getElem?_map]
  cases E.systems[i]? with
  | none => rfl
  | some s => exact sysRefresh_testAt E.world e s name ks

/-! ## C2: lazy vs. immediate recompute equivalence

A mutation signal is the pair of an entity id and its component keys after
the mutation: the proxy's `set`/`deleteProperty` trap performs the write
and then calls `Engine._markEntityChanged` for that entity. -/

/-- One processed entity mutation: write the entity's new key set, then
`_markEntityChanged` (enqueue when lazy, `refreshEntity` when immediate). -/
def applySignal (E : Eng) (m : Nat × PropKeys) : Eng :=
  engMarkChanged { E with world := Function.update E.world m.1 m.2 } m.1

/-- A finite sequence of entity mutation signals, applied in order. -/
def runSignals (E : Eng) (ms : List (Nat × PropKeys)) : Eng :=
  ms.foldl applySignal E

/-- The component state after a sequence of mutations. -/
def applyW (w : Nat → PropKeys) (ms : List (Nat × PropKeys)) : Nat → PropKeys :=
  ms.foldl (fun w m => Function.update w m.1 m.2) w

theorem applyW_not_mutated (w : Nat → PropKeys) (ms : List (Nat × PropKeys))
    {e : Nat} (h : e ∉ ms.map Prod.fst) : applyW w ms e = w e := by
  induction ms generalizing w with
  | nil => rfl
  | cons m rest ih =>
    simp only [List.map_cons, List.mem_cons] at h
    push_neg at h
    show applyW (Function.update w m.1 m.2) rest e = w e
    rw [ih _ h.2, Function.update_noteq h.1]

theorem engRefreshEntity_world (E : Eng) (e : Nat) :
    (engRefreshEntity E e).world = E.world := rfl

theorem engMarkChanged_world (E : Eng) (e : Nat) :
    (engMarkChanged E e).world = E.world := by
  unfold engMarkChanged
  split <;> rfl

theorem engMarkChanged_lazy (E : Eng) (e : Nat) :
    (engMarkChanged E e).lazyRefresh = E.lazyRefresh := by
  unfold engMarkChanged
  split <;> rfl

theorem applySignal_world (E : Eng) (m : Nat × PropKeys) :
    (applySignal E m).world = Function.update E.world m.1 m.2 :=
  engMarkChanged_world _ _

theorem applySignal_lazy (E : Eng) (m : Nat × PropKeys) :
    (applySignal E m).lazyRefresh = E.lazyRefresh :=
  engMarkChanged_lazy _ _

theorem runSignals_world (E : Eng) (ms : List (Nat × PropKeys)) :
    (runSignals E ms).world = applyW E.world ms := by
  induction ms generalizing E with
  | nil => rfl
  | cons m rest ih =>
    show (runSignals (applySignal E m) rest).world = _
    rw [ih, applySignal_world]
    rfl

theorem runSignals_lazy (E : Eng) (ms : List (Nat × PropKeys)) :
    (runSignals E ms).lazyRefresh = E.lazyRefresh := by
  induction ms generalizing E with
  | nil => rfl
  | cons m rest ih =>
    show (runSignals (applySignal E m) rest).lazyRefresh = _
    rw [ih, applySignal_lazy]

theorem engTestAt_applySignal (E : Eng) (m : Nat × PropKeys) (i : Nat) (name : String)
    (ks : PropKeys) :
    engTestAt (applySignal E m) i name ks = engTestAt E i name ks := by
  unfold applySignal engMarkChanged
  split
  · rfl
  · exact engRefreshEntity_testAt _ _ _ _ _

theorem engMemb_applySignal_imm (E : Eng) (m : Nat × PropKeys)
    (hl : E.lazyRefresh = false) (i : Nat) (name : String) (e : Nat) :
    engMemb (applySignal E m) i name e
      = if e = m.1 then engTestAt E i name m.2 else engMemb E i name e := by
  unfold applySignal engMarkChanged
  rw [if_neg (by simp [hl])]
  by_cases he : e = m.1
  · rw [if_pos he, he, engRefreshEntity_memb_self]
    show engTestAt E i name (Function.update E.world m.1 m.2 m.1) = _
    rw [Function.update_same]
  · rw [if_neg he, engRefreshEntity_memb_other _ _ _ _ he]
    rfl

/-- Immediate mode: after a signal sequence, an entity's membership is its
requirement test on its final component state if it was ever signalled,
and is untouched otherwise. -/
theorem runSignals_imm_memb (ms : List (Nat × PropKeys)) (E : Eng)
    (hl : E.lazyRefresh = false) (i : Nat) (name : String) (e : Nat) :
    engMemb (runSignals E ms) i name e
      = if e ∈ ms.map Prod.fst then engTestAt E i name (applyW E.world ms e)
        else engMemb E i name e := by
  induction ms generalizing E with
  | nil => simp [runSignals, applyW]
  | cons m rest ih =>
    have hl' : (applySignal E m).lazyRefresh = false := by
      rw [applySignal_lazy]; exact hl
    have hmain : engMemb (runSignals E (m :: rest)) i name e
        = if e ∈ rest.map Prod.fst
            then engTestAt E i name (applyW (Function.update E.world m.1 m.2) rest e)
            else engMemb (applySignal E m) i name e := by
      show engMemb (runSignals (applySignal E m) rest) i name e = _
      rw [ih _ hl']
      rw [engTestAt_applySignal, applySignal_world]
    rw [hmain]
    by_cases hrest : e ∈ rest.map Prod.fst
    · rw [if_pos hrest, if_pos (by simp [List.mem_cons, hrest])]
      rfl
    · rw [if_neg hrest, engMemb_applySignal_imm E m hl]
      by_cases he : e = m.1
      · rw [if_pos he, if_pos (by simp [he])]
        have hw : applyW E.world (m :: rest) e
            = Function.update E.world m.1 m.2 e := by
          show applyW (Function.update E.world m.1 m.2) rest e = _
          exact applyW_not_mutated _ _ hrest
        rw [hw, he, Function.update_same]
      · rw [if_neg he, if_neg (by simp [List.mem_cons, he, hrest])]

theorem applySignal_systems_lazy (E : Eng) (m : Nat × PropKeys)
    (hl : E.lazyRefresh = true) : (applySignal E m).systems = E.systems := by
  simp [applySignal, engMarkChanged, hl]

theorem applySignal_queue_lazy (E : Eng) (m : Nat × PropKeys)
    (hl : E.lazyRefresh = true) :
    (applySignal E m).refreshQueue = setAdd E.refreshQueue m.1 := by
  simp [applySignal, engMarkChanged, hl]

theorem runSignals_lazy_systems (ms : List (Nat × PropKeys)) (E : Eng)
    (hl : E.lazyRefresh = true) : (runSignals E ms).systems = E.systems := by
  induction ms generalizing E with
  | nil => rfl
  | cons m rest ih =>
    show (runSignals (applySignal E m) rest).systems = _
    rw [ih _ (by rw [applySignal_lazy]; exact hl), applySignal_systems_lazy E m hl]

theorem runSignals_lazy_queue (ms : List (Nat × PropKeys)) (E : Eng)
    (hl : E.lazyRefresh = true) :
    (runSignals E ms).refreshQueue = (ms.map Prod.fst).foldl setAdd E.refreshQueue := by
  induction ms generalizing E with
  | nil => rfl
  | cons m rest ih =>
    show (runSignals (applySignal E m) rest).refreshQueue = _
    rw [ih _ (by rw [applySignal_lazy]; exact hl), applySignal_queue_lazy E m hl]
    rfl

theorem mem_foldl_setAdd {α} [DecidableEq α] (l : List α) (s : List α) (x : α) :
    x ∈ l.foldl setAdd s ↔ x ∈ s ∨ x ∈ l := by
  induction l generalizing s with
  | nil => simp
  | cons h t ih =>
    show x ∈ t.foldl setAdd (setAdd s h) ↔ _
    rw [ih, mem_setAdd]
    simp [List.mem_cons]
    tauto

theorem foldl_refresh_world (q : List Nat) (E : Eng) :
    (q.foldl engRefreshEntity E).world = E.world := by
  induction q generalizing E with
  | nil => rfl
  | cons h t ih => exact ih (engRefreshEntity E h)

theorem foldl_refresh_testAt (q : List Nat) (E : Eng) (i : Nat) (name : String)
    (ks : PropKeys) :
    engTestAt (q.foldl engRefreshEntity E) i name ks = engTestAt E i name ks := by
  induction q generalizing E with
  | nil => rfl
  | cons h t ih =>
    show engTestAt (t.foldl engRefreshEntity (engRefreshEntity E h)) i name ks = _
    rw [ih, engRefreshEntity_testAt]

/-- Draining a queue snapshot: each queued entity ends up with membership
equal to its requirement test on the (drain-invariant) world; entities not
in the snapshot are untouched. -/
theorem foldl_refresh_memb (q : List Nat) (E : Eng) (i : Nat) (name : String) (e : Nat) :
    engMemb (q.foldl engRefreshEntity E) i name e
      = if e ∈ q then engTestAt E i name (E.world e) else engMemb E i name e := by
  induction q generalizing E with
  | nil => simp
  | cons h t ih =>
    show engMemb (t.foldl engRefreshEntity (engRefreshEntity E h)) i name e = _
    rw [ih, engRefreshEntity_testAt, engRefreshEntity_world]
    by_cases ht : e ∈ t
    · rw [if_pos ht, if_pos (List.mem_cons.mpr (Or.inr ht))]
    · rw [if_neg ht]
      by_cases he : e = h
      · rw [he, engRefreshEntity_memb_self, if_pos (List.mem_cons.mpr (Or.inl rfl))]
      · rw [engRefreshEntity_memb_other E h i name he,
          if_neg (by simp [List.mem_cons, he, ht])]

theorem engMemb_eq_of_systems {E₁ E₂ : Eng} (h : E₁.systems = E₂.systems)
    (i : Nat) (name : String) (e : Nat) : engMemb E₁ i name e = engMemb E₂ i name e := by
  unfold engMemb
  rw [h]

theorem engTestAt_eq_of_systems {E₁ E₂ : Eng} (h : E₁.systems = E₂.systems)
    (i : Nat) (name : String) (ks : PropKeys) :
    engTestAt E₁ i name ks = engTestAt E₂ i name ks := by
  unfold engTestAt
  rw [h]

/-- C2: for every engine and finite sequence of entity mutation signals,
running the signals with `lazyEntityRefresh` enabled (each signal only
enqueues) followed by one drain of the refresh queue
(`processChangedQueue`) produces exactly the same per-system,
per-collection membership state as running them with `lazyEntityRefresh`
disabled (each signal immediately runs `refreshEntity`). -/
theorem C2_lazy_immediate_equivalence (E : Eng) (ms : List (Nat × PropKeys))
    (hq : E.refreshQueue = []) (i : Nat) (name : String) (e : Nat) :
    engMemb (engProcessChangedQueue (runSignals { E with lazyRefresh := true } ms)).1 i name e
      = engMemb (runSignals { E with lazyRefresh := false } ms) i name e := by
  have hLsys : (runSignals { E with lazyRefresh := true } ms).systems = E.systems :=
    runSignals_lazy_systems ms _ rfl
  have hLworld : (runSignals { E with lazyRefresh := true } ms).world
      = applyW E.world ms := runSignals_world _ _
  have hLq : (runSignals { E with lazyRefresh := true } ms).refreshQueue
      = (ms.map Prod.fst).foldl setAdd [] := by
    rw [runSignals_lazy_queue ms _ rfl]
    show (ms.map Prod.fst).foldl setAdd E.refreshQueue = _
    rw [hq]
  show engMemb ((runSignals { E with lazyRefresh := true } ms).refreshQueue.foldl
      engRefreshEntity (runSignals { E with lazyRefresh := true } ms)) i name e = _
  rw [foldl_refresh_memb, runSignals_imm_memb ms { E with lazyRefresh := false } rfl]
  have hcond : (e ∈ (runSignals { E with lazyRefresh := true } ms).refreshQueue)
      ↔ e ∈ ms.map Prod.fst := by
    rw [hLq, mem_foldl_setAdd]
    simp
  by_cases hin : e ∈ ms.map Prod.fst
  · rw [if_pos (hcond.mpr hin), if_pos hin, hLworld,
      engTestAt_eq_of_systems hLsys]
    rfl
  · rw [if_neg (fun hmem => hin (hcond.mp hmem)), if_neg hin,
      engMemb_eq_of_systems hLsys]
    rfl

/-- Witness for C2: a concrete engine with one system requiring key
`"x"`, an empty refresh queue, and one mutation giving entity `0`
that key. -/
theorem C2_lazy_immediate_equivalence_witness :
    (({ world := (fun _ => []),
        systems := [{ colls := some [⟨"q", [Constraint.key "x"], []⟩] }] } : Eng).refreshQueue
      = [])
    ∧ engMemb (engProcessChangedQueue (runSignals
        ({ world := (fun _ => []),
           systems := [{ colls := some [⟨"q", [Constraint.key "x"], []⟩] }],
           lazyRefresh := true } : Eng) [(0, ["x"])])).1 0 "q" 0
      = engMemb (runSignals
        ({ world := (fun _ => []),
           systems := [{ colls := some [⟨"q", [Constraint.key "x"], []⟩] }],
           lazyRefresh := false } : Eng) [(0, ["x"])]) 0 "q" 0 :=
  ⟨rfl, C2_lazy_immediate_equivalence
    ({ world := (fun _ => []),
       systems := [{ colls := some [⟨"q", [Constraint.key "x"], []⟩] }] } : Eng)
    [(0, ["x"])] rfl 0 "q" 0⟩

/-! ## C3: phase ordering inside one tick -/

theorem flatten_map_singleton {α β} (l : List α) (f : α → β) :
    (l.map (fun a => [f a])).flatten = l.map f := by
  induction l with
  | nil => rfl
  | cons h t ih => simp [ih]

theorem filterMap_if_map {β} (l : List (Nat × Sys)) (f : Nat → β) :
    l.filterMap (fun p => if p.2.enabled && p.2.isQualified then some (f p.1) else none)
      = (l.filterMap (fun p => if p.2.enabled && p.2.isQualified then some p.1 else none)).map
          f := by
  induction l with
  | nil => rfl
  | cons h t ih =>
    by_cases hc : (h.2.enabled && h.2.isQualified) = true
    · simp only [List.filterMap_cons, hc, if_true, List.map_cons, ih]
    · rw [Bool.not_eq_true] at hc
      simp only [List.filterMap_cons, hc]
      simpa using ih

theorem foldl_refresh_addQueue (q : List Nat) (E : Eng) :
    (q.foldl engRefreshEntity E).addQueue = E.addQueue := by
  induction q generalizing E with
  | nil => rfl
  | cons h t ih => exact ih (engRefreshEntity E h)

theorem foldl_refresh_queue (q : List Nat) (E : Eng) :
    (q.foldl engRefreshEntity E).refreshQueue = q.foldl setDelete E.refreshQueue := by
  induction q generalizing E with
  | nil => rfl
  | cons h t ih => exact ih (engRefreshEntity E h)

theorem foldl_setDelete_covered {α} [DecidableEq α] (q : List α) (s : List α)
    (hsub : ∀ x ∈ s, x ∈ q) : q.foldl setDelete s = [] := by
  induction q generalizing s with
  | nil => exact List.eq_nil_iff_forall_not_mem.mpr (fun x hx => (List.not_mem_nil x) (hsub x hx))
  | cons h t ih =>
    show t.foldl setDelete (setDelete s h) = []
    refine ih _ (fun x hx => ?hx)
    obtain ⟨hs, hne⟩ := mem_setDelete.mp hx
    cases List.mem_cons.mp (hsub x hs) with
    | inl heq => exact absurd heq hne
    | inr hmem => exact hmem

/-- C3: with the default lazy-refresh configuration, one `update(dt)` tick
produces its observable events strictly in phases — first every add-queue
entity is moved into the live set (and marked as changed), then the
recompute queue is drained (one membership recompute per queued entity),
and only after both drains are systems' update functions invoked — and
both queues end the tick fully drained. -/
theorem C3_update_phase_order (E : Eng) (dt : Nat) (hl : E.lazyRefresh = true) :
    (∃ refs upds : List Nat,
      (engUpdate E dt).2
        = E.addQueue.map Ev.addedToLive ++ refs.map Ev.refreshed
            ++ upds.map Ev.sysUpdated)
    ∧ (engUpdate E dt).1.addQueue = []
    ∧ (engUpdate E dt).1.refreshQueue = [] := by
  refine ⟨⟨(engProcessAddQueue { E with dt := dt }).1.refreshQueue,
    (engProcessChangedQueue (engProcessAddQueue { E with dt := dt }).1).1.systems.enum.filterMap
      (fun p => if p.2.enabled && p.2.isQualified then some p.1 else none), ?trace⟩,
    ?addq, ?refq⟩
  case trace =>
    show (engProcessAddQueue { E with dt := dt }).2
        ++ (engProcessChangedQueue (engProcessAddQueue { E with dt := dt }).1).2
        ++ (engUpdatePhase _).2 = _
    have h1 : (engProcessAddQueue { E with dt := dt }).2
        = E.addQueue.map Ev.addedToLive := by
      show (({ E with dt := dt } : Eng).addQueue.map
        (fun e => Ev.addedToLive e ::
          if ({ E with dt := dt } : Eng).lazyRefresh then [] else [Ev.refreshed e])).flatten = _
      have : ({ E with dt := dt } : Eng).lazyRefresh = true := hl
      rw [this]
      simp only [if_true]
      exact flatten_map_singleton _ _
    rw [h1, ← filterMap_if_map]
    rfl
  case addq =>
    show ((engProcessChangedQueue (engProcessAddQueue { E with dt := dt }).1).1).addQueue = []
    show ((engProcessAddQueue { E with dt := dt }).1.refreshQueue.foldl engRefreshEntity
      (engProcessAddQueue { E with dt := dt }).1).addQueue = []
    rw [foldl_refresh_addQueue]
    rfl
  case refq =>
    show ((engProcessChangedQueue (engProcessAddQueue { E with dt := dt }).1).1).refreshQueue = []
    show ((engProcessAddQueue { E with dt := dt }).1.refreshQueue.foldl engRefreshEntity
      (engProcessAddQueue { E with dt := dt }).1).refreshQueue = []
    rw [foldl_refresh_queue]
    exact foldl_setDelete_covered _ _ (fun x hx => hx)

/-- A concrete lazily-refreshing engine with a pending add and a pending
recompute, used to witness C3. -/
def engC3sample : Eng :=
  { world := (fun _ => ["x"]), addQueue := [1], refreshQueue := [2],
    systems := [{ colls := some [⟨"q", [Constraint.key "x"], []⟩] }] }

/-- Witness for C3: the phase decomposition at a concrete engine. -/
theorem C3_update_phase_order_witness :
    (engC3sample.lazyRefresh = true)
    ∧ ((∃ refs upds : List Nat,
        (engUpdate engC3sample 7).2
          = engC3sample.addQueue.map Ev.addedToLive ++ refs.map Ev.refreshed
              ++ upds.map Ev.sysUpdated)
      ∧ (engUpdate engC3sample 7).1.addQueue = []
      ∧ (engUpdate engC3sample 7).1.refreshQueue = []) :=
  ⟨rfl, C3_update_phase_order engC3sample 7 rfl⟩

/-! ## C4: detachment sweep -/

theorem sysRemoveAll_memb (e : Nat) (s : Sys) (name : String) :
    (sysRemoveAll e s).1.memb name e = false := by
  cases hc : s.colls with
  | none =>
    have h1 : (sysRemoveAll e s).1 = s := by
      unfold sysRemoveAll
      rw [hc]
    rw [h1]
    unfold Sys.memb
    rw [hc]
  | some cs =>
    have h1 : (sysRemoveAll e s).1.colls
        = some (cs.map (fun c => (collRemove e c).1)) := by
      unfold sysRemoveAll
      rw [hc]
      simp [List.map_map, Function.comp]
    unfold Sys.memb
    rw [h1]
    dsimp only
    rw [find?_name_map cs _ (fun c => collRemove_name e c) name]
    cases cs.find? (fun c => decide (c.name = name)) with
    | none => rfl
    | some c => exact collRemove_memb_self e c

theorem count_removed_flatten_notmem (e : Nat) (cs : List Coll) (name : String)
    (h : name ∉ cs.map Coll.name) :
    ((cs.map (fun c => (collRemove e c).2)).flatten).count (HookEv.removed name) = 0 := by
  induction cs with
  | nil => rfl
  | cons c rest ih =>
    simp only [List.map_cons, List.mem_cons] at h
    push_neg at h
    simp only [List.map_cons, List.flatten_cons, List.count_append]
    rw [ih h.2]
    have hcount : ((collRemove e c).2).count (HookEv.removed name) = 0 := by
      unfold collRemove
      split
      · show List.count (HookEv.removed name) [HookEv.removed c.name] = 0
        rw [List.count_eq_zero]
        simp only [List.mem_singleton, HookEv.removed.injEq]
        exact h.1
      · rfl
    rw [hcount]

theorem count_removed_flatten (e : Nat) (cs : List Coll) (name : String)
    (hnd : (cs.map Coll.name).Nodup) :
    ((cs.map (fun c => (collRemove e c).2)).flatten).count (HookEv.removed name)
      = (match cs.find? (fun c => decide (c.name = name)) with
         | some c => if setHas c.members e then 1 else 0
         | none => 0) := by
  induction cs with
  | nil => rfl
  | cons c rest ih =>
    simp only [List.map_cons, List.nodup_cons] at hnd
    simp only [List.map_cons, List.flatten_cons, List.count_append]
    by_cases hn : c.name = name
    · rw [List.find?_cons_of_pos _ (by simp [hn])]
      have hrest : ((rest.map (fun c => (collRemove e c).2)).flatten).count
          (HookEv.removed name) = 0 :=
        count_removed_flatten_notmem e rest name (hn ▸ hnd.1)
      rw [hrest]
      have hhead : ((collRemove e c).2).count (HookEv.removed name)
          = if setHas c.members e then 1 else 0 := by
        unfold collRemove
        split
        · show List.count (HookEv.removed name) [HookEv.removed c.name] = 1
          rw [hn]
          simp
        · rfl
      rw [hhead]
      simp
    · rw [List.find?_cons_of_neg _ (by simp [hn])]
      have hhead : ((collRemove e c).2).count (HookEv.removed name) = 0 := by
        unfold collRemove
        split
        · show List.count (HookEv.removed name) [HookEv.removed c.name] = 0
          rw [List.count_eq_zero]
          simp only [List.mem_singleton, HookEv.removed.injEq]
          exact fun hEq => hn hEq.symm
        · rfl
      rw [hhead, ih hnd.2]
      simp

theorem sysRemoveAll_count (e : Nat) (s : Sys) (cs : List Coll) (name : String)
    (hc : s.colls = some cs) (hnd : (cs.map Coll.name).Nodup) :
    (sysRemoveAll e s).2.count (HookEv.removed name)
      = if s.memb name e then 1 else 0 := by
  have h2 : (sysRemoveAll e s).2 = (cs.map (fun c => (collRemove e c).2)).flatten := by
    unfold sysRemoveAll
    rw [hc]
    dsimp only
    rw [List.map_map]
    rfl
  rw [h2, count_removed_flatten e cs name hnd]
  unfold Sys.memb
  rw [hc]
  dsimp only
  cases cs.find? (fun c => decide (c.name = name)) with
  | none => rfl
  | some c => rfl

/-- C4: removing an entity from the engine sweeps it out of every
collection of every registered system, firing that system's
`onEntityRemoved` hook exactly once per collection that contained the
entity and zero times for collections that never contained it. -/
theorem C4_remove_entity_sweep (E : Eng) (e : Nat) (i : Nat) (s : Sys) (cs : List Coll)
    (h : E.systems[i]? = some s) (hc : s.colls = some cs)
    (hnd : (cs.map Coll.name).Nodup) :
    (∀ name, engMemb (engRemoveEntity E e).1 i name e = false)
    ∧ (∀ name, ((engRemoveEntity E e).2[i]?.getD []).count (HookEv.removed name)
        = if s.memb name e then 1 else 0) := by
  have hsys : (engRemoveEntity E e).1.systems[i]? = some (sysRemoveAll e s).1 := by
    show ((E.systems.map (sysRemoveAll e)).map (·.1))[i]? = _
    rw [List.getElem?_map, List.getElem?_map, h]
    rfl
  have hevs : (engRemoveEntity E e).2[i]? = some (sysRemoveAll e s).2 := by
    show ((E.systems.map (sysRemoveAll e)).map (·.2))[i]? = _
    rw [List.getElem?_map, List.getElem?_map, h]
    rfl
  constructor
  · intro name
    unfold engMemb
    rw [hsys]
    exact sysRemoveAll_memb e s name
  · intro name
    rw [hevs]
    exact sysRemoveAll_count e s cs name hc hnd

/-- Concrete data witnessing C4: a system with a collection `"a"`
containing entity `5` and a collection `"b"` not containing it. -/
def csC4 : List Coll :=
  [⟨"a", [Constraint.key "x"], [5]⟩, ⟨"b", [Constraint.key "y"], []⟩]

def sysC4 : Sys := { colls := some csC4 }

def engC4sample : Eng := { world := (fun _ => []), systems := [sysC4] }

/-- Witness for C4 at the concrete engine: entity `5` leaves both
collections, the removal hook fires once for `"a"` and never for `"b"`. -/
theorem C4_remove_entity_sweep_witness :
    (engC4sample.systems[0]? = some sysC4) ∧ (sysC4.colls = some csC4)
    ∧ (csC4.map Coll.name).Nodup
    ∧ engMemb (engRemoveEntity engC4sample 5).1 0 "a" 5 = false
    ∧ engMemb (engRemoveEntity engC4sample 5).1 0 "b" 5 = false
    ∧ ((engRemoveEntity engC4sample 5).2[0]?.getD []).count (HookEv.removed "a")
        = (if sysC4.memb "a" 5 then 1 else 0)
    ∧ ((engRemoveEntity engC4sample 5).2[0]?.getD []).count (HookEv.removed "b")
        = (if sysC4.memb "b" 5 then 1 else 0) :=
  ⟨rfl, rfl, by decide,
    (C4_remove_entity_sweep engC4sample 5 0 sysC4 csC4 rfl rfl (by decide)).1 "a",
    (C4_remove_entity_sweep engC4sample 5 0 sysC4 csC4 rfl rfl (by decide)).1 "b",
    (C4_remove_entity_sweep engC4sample 5 0 sysC4 csC4 rfl rfl (by decide)).2 "a",
    (C4_remove_entity_sweep engC4sample 5 0 sysC4 csC4 rfl rfl (by decide)).2 "b"⟩

/-! ## C6: a throwing system is caught, disabled, and isolated -/

/-- Several consecutive ticks with the given delta-times. -/
def engRun (ds : List Nat) (E : Eng) : Eng :=
  ds.foldl (fun E d => (engUpdate E d).1) E

/-- The part of a system's state the update pass owns: its enabled flag
and its invocation count. -/
def sysProfile (s : Sys) : Bool × Nat := (s.enabled, s.updCount)

theorem sysProfile_sysRefresh (w : Nat → PropKeys) (e : Nat) (s : Sys) :
    sysProfile (sysRefresh w e s).1 = sysProfile s := by
  unfold sysProfile
  rw [sysRefresh_enabled, sysRefresh_updCount]

theorem profile_engRefreshEntity (E : Eng) (e : Nat) (i : Nat) :
    ((engRefreshEntity E e).systems[i]?).map sysProfile
      = (E.systems[i]?).map sysProfile := by
  show ((E.systems.map (fun s => (sysRefresh E.world e s).1))[i]?).map sysProfile = _
  rw [List.getElem?_map]
  cases E.systems[i]? with
  | none => rfl
  | some s =>
    show some (sysProfile (sysRefresh E.world e s).1) = some (sysProfile s)
    rw [sysProfile_sysRefresh]

theorem profile_engMarkChanged (E : Eng) (e : Nat) (i : Nat) :
    ((engMarkChanged E e).systems[i]?).map sysProfile
      = (E.systems[i]?).map sysProfile := by
  unfold engMarkChanged
  split
  · rfl
  · exact profile_engRefreshEntity E e i

theorem profile_engAddStep (E : Eng) (e : Nat) (i : Nat) :
    ((engAddStep E e).systems[i]?).map sysProfile = (E.systems[i]?).map sysProfile := by
  unfold engAddStep
  rw [profile_engMarkChanged]

theorem profile_foldl_addStep (q : List Nat) (E : Eng) (i : Nat) :
    ((q.foldl engAddStep E).systems[i]?).map sysProfile
      = (E.systems[i]?).map sysProfile := by
  induction q generalizing E with
  | nil => rfl
  | cons h t ih => rw [List.foldl_cons, ih, profile_engAddStep]

theorem profile_foldl_refresh (q : List Nat) (E : Eng) (i : Nat) :
    ((q.foldl engRefreshEntity E).systems[i]?).map sysProfile
      = (E.systems[i]?).map sysProfile := by
  induction q generalizing E with
  | nil => rfl
  | cons h t ih => rw [List.foldl_cons, ih, profile_engRefreshEntity]

theorem updateSystem_disabled {s : Sys} (h : s.enabled = false) : updateSystem s = s := by
  unfold updateSystem
  rw [h]
  rfl

theorem profile_engUpdate_disabled (E : Eng) (dt : Nat) (i : Nat) (n : Nat)
    (h : (E.systems[i]?).map sysProfile = some (false, n)) :
    ((engUpdate E dt).1.systems[i]?).map sysProfile = some (false, n) := by
  have h1 : ((engProcessAddQueue { E with dt := dt }).1.systems[i]?).map sysProfile
      = some (false, n) := by
    show (((({ E with dt := dt } : Eng).addQueue.foldl engAddStep
      { E with dt := dt }).systems[i]?).map sysProfile) = _
    rw [profile_foldl_addStep]
    exact h
  have h2 : (((engProcessChangedQueue (engProcessAddQueue { E with dt := dt }).1).1
      ).systems[i]?).map sysProfile = some (false, n) := by
    show (((engProcessAddQueue { E with dt := dt }).1.refreshQueue.foldl engRefreshEntity
      (engProcessAddQueue { E with dt := dt }).1).systems[i]?).map sysProfile = _
    rw [profile_foldl_refresh]
    exact h1
  show ((((engProcessChangedQueue (engProcessAddQueue { E with dt := dt }).1).1
    ).systems.map updateSystem)[i]?).map sysProfile = _
  rw [List.getElem?_map]
  cases hcase : ((engProcessChangedQueue
      (engProcessAddQueue { E with dt := dt }).1).1).systems[i]? with
  | none =>
    rw [hcase] at h2
    cases h2
  | some t =>
    rw [hcase] at h2
    have h2' : sysProfile t = (false, n) := Option.some.inj h2
    have hten : t.enabled = false := congrArg Prod.fst h2'
    show some (sysProfile (updateSystem t)) = some (false, n)
    rw [updateSystem_disabled hten, h2']

theorem profile_engRun_disabled (ds : List Nat) (E : Eng) (i : Nat) (n : Nat)
    (h : (E.systems[i]?).map sysProfile = some (false, n)) :
    ((engRun ds E).systems[i]?).map sysProfile = some (false, n) := by
  induction ds generalizing E with
  | nil => exact h
  | cons d rest ih =>
    show ((engRun rest (engUpdate E d).1).systems[i]?).map sysProfile = _
    exact ih _ (profile_engUpdate_disabled E d i n h)

theorem engUpdate_systems_of_empty (E : Eng) (dt : Nat)
    (ha : E.addQueue = []) (hr : E.refreshQueue = []) :
    (engUpdate E dt).1.systems = E.systems.map updateSystem := by
  have h1 : (engProcessAddQueue { E with dt := dt }).1
      = { E with dt := dt, addQueue := [] } := by
    show { (({ E with dt := dt } : Eng).addQueue.foldl engAddStep { E with dt := dt })
      with addQueue := [] } = _
    have hq : ({ E with dt := dt } : Eng).addQueue = [] := ha
    rw [hq]
    rfl
  have h2 : (engProcessChangedQueue (engProcessAddQueue { E with dt := dt }).1).1
      = { E with dt := dt, addQueue := [] } := by
    rw [h1]
    show ({ E with dt := dt, addQueue := [] } : Eng).refreshQueue.foldl engRefreshEntity
      { E with dt := dt, addQueue := [] } = _
    have hq : ({ E with dt := dt, addQueue := [] } : Eng).refreshQueue = [] := hr
    rw [hq]
    rfl
  show ((engProcessChangedQueue (engProcessAddQueue { E with dt := dt }).1).1
    ).systems.map updateSystem = _
  rw [h2]

/-- C6: if one enabled, qualified system's `update` throws during a tick
(on an engine with no pending queue work), the engine catches it — the
tick completes with a defined state in which the throwing system is
disabled, every enabled and qualified system (the throwing one included)
was still invoked exactly once this tick, and the throwing system's
update is never invoked again on any sequence of later ticks. -/
theorem C6_update_error_isolation (E : Eng) (dt : Nat) (i : Nat) (s : Sys)
    (ha : E.addQueue = []) (hr : E.refreshQueue = [])
    (h : E.systems[i]? = some s)
    (he : s.enabled = true) (hq : s.isQualified = true) (ht : s.throws = true) :
    ((engUpdate E dt).1.systems[i]?).map Sys.enabled = some false
    ∧ ((engUpdate E dt).1.systems[i]?).map Sys.updCount = some (s.updCount + 1)
    ∧ (∀ (j : Nat) (t : Sys), E.systems[j]? = some t → t.enabled = true →
        t.isQualified = true →
        ((engUpdate E dt).1.systems[j]?).map Sys.updCount = some (t.updCount + 1))
    ∧ (∀ ds : List Nat,
        ((engRun ds (engUpdate E dt).1).systems[i]?).map sysProfile
          = some (false, s.updCount + 1)) := by
  have hsys : ∀ j : Nat, (engUpdate E dt).1.systems[j]? = (E.systems[j]?).map updateSystem := by
    intro j
    rw [engUpdate_systems_of_empty E dt ha hr, List.getElem?_map]
  have hupd : updateSystem s = { s with updCount := s.updCount + 1, enabled := false } := by
    unfold updateSystem
    rw [he, hq, ht]
    rfl
  have hself : (engUpdate E dt).1.systems[i]?
      = some { s with updCount := s.updCount + 1, enabled := false } := by
    rw [hsys i, h]
    show some (updateSystem s) = _
    rw [hupd]
  refine ⟨?en, ?cnt, ?others, ?later⟩
  case en => rw [hself]; rfl
  case cnt => rw [hself]; rfl
  case others =>
    intro j t hj hte htq
    rw [hsys j, hj]
    show some (Sys.updCount (updateSystem t)) = some (t.updCount + 1)
    unfold updateSystem
    have hcond : (t.enabled && t.isQualified) = true := by simp [hte, htq]
    rw [if_pos hcond]
    cases hth : t.throws <;> rfl
  case later =>
    intro ds
    refine profile_engRun_disabled ds _ i (s.updCount + 1) ?start
    rw [hself]
    rfl

/-- Concrete engines witnessing C6: a throwing qualified system at
position 0 and a healthy qualified system at position 1. -/
def sysC6bad : Sys := { colls := some [⟨"a", [], [1]⟩], throws := true }

def sysC6good : Sys := { colls := some [⟨"a", [], [2]⟩] }

def engC6sample : Eng := { world := (fun _ => []), systems := [sysC6bad, sysC6good] }

/-- Witness for C6: on the concrete engine, the throwing system ends the
tick disabled after exactly one invocation, the healthy system is still
invoked, and two further ticks never invoke the throwing system again. -/
theorem C6_update_error_isolation_witness :
    (engC6sample.addQueue = []) ∧ (engC6sample.refreshQueue = [])
    ∧ (engC6sample.systems[0]? = some sysC6bad)
    ∧ (sysC6bad.enabled = true) ∧ (sysC6bad.isQualified = true) ∧ (sysC6bad.throws = true)
    ∧ ((engUpdate engC6sample 9).1.systems[0]?).map Sys.enabled = some false
    ∧ ((engUpdate engC6sample 9).1.systems[0]?).map Sys.updCount
        = some (sysC6bad.updCount + 1)
    ∧ ((engUpdate engC6sample 9).1.systems[1]?).map Sys.updCount
        = some (sysC6good.updCount + 1)
    ∧ ((engRun [3, 4] (engUpdate engC6sample 9).1).systems[0]?).map sysProfile
        = some (false, sysC6bad.updCount + 1) :=
  ⟨rfl, rfl, rfl, rfl, by decide, rfl,
    (C6_update_error_isolation engC6sample 9 0 sysC6bad rfl rfl rfl rfl (by decide) rfl).1,
    (C6_update_error_isolation engC6sample 9 0 sysC6bad rfl rfl rfl rfl (by decide) rfl).2.1,
    (C6_update_error_isolation engC6sample 9 0 sysC6bad rfl rfl rfl rfl (by decide)
      rfl).2.2.1 1 sysC6good rfl rfl (by decide),
    (C6_update_error_isolation engC6sample 9 0 sysC6bad rfl rfl rfl rfl (by decide)
      rfl).2.2.2 [3, 4]⟩

/-! ## C7: `addEntity` idempotence -/

/-- A second membership recompute for the same entity against the same
world is a complete no-op: the collection is unchanged and no hook
fires. -/
theorem collRefresh_noop (w : Nat → PropKeys) (e : Nat) (d : Coll)
    (h : setHas d.members e = testFn d.req (w e)) :
    collRefresh w e d = (d, []) := by
  unfold collRefresh collAdd collRemove
  by_cases ht : testFn d.req (w e) = true
  · have h' : setHas d.members e = true := by rw [h, ht]
    rw [if_pos ht, if_pos h']
  · rw [Bool.not_eq_true] at ht
    have h' : setHas d.members e = false := by rw [h, ht]
    rw [if_neg (by rw [ht]; simp), if_neg (by rw [h']; simp)]

theorem collRefresh_stable (w : Nat → PropKeys) (e : Nat) (c : Coll) :
    collRefresh w e (collRefresh w e c).1 = ((collRefresh w e c).1, []) :=
  collRefresh_noop w e _ (by rw [collRefresh_memb_self w e c, collRefresh_req w e c])

theorem map_collRefresh_events_nil (w : Nat → PropKeys) (e : Nat) (l : List Coll)
    (h : ∀ d ∈ l, (collRefresh w e d).2 = []) :
    (l.map (fun d => (collRefresh w e d).2)).flatten = [] := by
  induction l with
  | nil => rfl
  | cons d rest ih =>
    simp only [List.map_cons, List.flatten_cons]
    rw [h d (List.mem_cons_self d rest), ih (fun x hx => h x (List.mem_cons_of_mem d hx))]
    rfl

theorem Sys.fields_ext {a b : Sys} (h1 : a.colls = b.colls) (h2 : a.enabled = b.enabled)
    (h3 : a.throws = b.throws) (h4 : a.updCount = b.updCount) : a = b := by
  cases a
  cases b
  cases h1
  cases h2
  cases h3
  cases h4
  rfl

theorem sysRefresh_throws (w : Nat → PropKeys) (e : Nat) (s : Sys) :
    (sysRefresh w e s).1.throws = s.throws := by
  unfold sysRefresh
  cases s.colls <;> rfl

theorem sysRefresh_colls (w : Nat → PropKeys) (e : Nat) (s : Sys) :
    (sysRefresh w e s).1.colls
      = s.colls.map (fun cs => cs.map (fun c => (collRefresh w e c).1)) := by
  unfold sysRefresh
  cases hs : s.colls with
  | none =>
    show s.colls = none
    exact hs
  | some cs =>
    show some ((cs.map (collRefresh w e)).map (fun x => x.1)) = _
    rw [List.map_map]
    rfl

theorem sysRefresh_events (w : Nat → PropKeys) (e : Nat) (s : Sys) :
    (sysRefresh w e s).2
      = (match s.colls with
         | none => []
         | some cs => (cs.map (fun c => (collRefresh w e c).2)).flatten) := by
  unfold sysRefresh
  cases hs : s.colls with
  | none => rfl
  | some cs =>
    show ((cs.map (collRefresh w e)).map (fun x => x.2)).flatten = _
    rw [List.map_map]
    rfl

theorem map_collRefresh_fst_idem (w : Nat → PropKeys) (e : Nat) (cs : List Coll) :
    (cs.map (fun c => (collRefresh w e c).1)).map (fun c => (collRefresh w e c).1)
      = cs.map (fun c => (collRefresh w e c).1) := by
  rw [List.map_map]
  refine List.map_eq_map_iff.mpr (fun d _ => ?hd)
  show (collRefresh w e ((collRefresh w e d).1)).1 = (collRefresh w e d).1
  rw [collRefresh_stable]

theorem sysRefresh_twice_fst (w : Nat → PropKeys) (e : Nat) (s : Sys) :
    (sysRefresh w e (sysRefresh w e s).1).1 = (sysRefresh w e s).1 := by
  refine Sys.fields_ext ?c ?en ?th ?up
  case c =>
    rw [sysRefresh_colls, sysRefresh_colls]
    cases hs : s.colls with
    | none => rfl
    | some cs =>
      show some ((cs.map (fun c => (collRefresh w e c).1)).map
        (fun c => (collRefresh w e c).1)) = some (cs.map (fun c => (collRefresh w e c).1))
      rw [map_collRefresh_fst_idem]
  case en => rw [sysRefresh_enabled]
  case th => rw [sysRefresh_throws]
  case up => rw [sysRefresh_updCount]

theorem sysRefresh_twice_snd (w : Nat → PropKeys) (e : Nat) (s : Sys) :
    (sysRefresh w e (sysRefresh w e s).1).2 = [] := by
  rw [sysRefresh_events, sysRefresh_colls]
  cases hs : s.colls with
  | none => rfl
  | some cs =>
    show ((cs.map (fun c => (collRefresh w e c).1)).map
      (fun c => (collRefresh w e c).2)).flatten = []
    refine map_collRefresh_events_nil w e _ (fun d hd => ?hd)
    obtain ⟨d₀, _, rfl⟩ := List.mem_map.mp hd
    rw [collRefresh_stable]

/-- Repeating `refreshEntityStatus` for the same entity and world changes
nothing and fires no hook. -/
theorem sysRefresh_twice (w : Nat → PropKeys) (e : Nat) (s : Sys) :
    sysRefresh w e (sysRefresh w e s).1 = ((sysRefresh w e s).1, []) := by
  have h1 := sysRefresh_twice_fst w e s
  have h2 := sysRefresh_twice_snd w e s
  calc sysRefresh w e (sysRefresh w e s).1
      = ((sysRefresh w e (sysRefresh w e s).1).1,
         (sysRefresh w e (sysRefresh w e s).1).2) := rfl
    _ = ((sysRefresh w e s).1, []) := by rw [h1, h2]

/-- The number of copies of an entity in the named collection. -/
def Sys.membCount (s : Sys) (name : String) (e : Nat) : Nat :=
  match s.colls with
  | none => 0
  | some cs =>
    match cs.find? (fun c => decide (c.name = name)) with
    | some c => c.members.count e
    | none => 0

theorem count_added_flatten_notmem (w : Nat → PropKeys) (e : Nat) (cs : List Coll)
    (name : String) (h : name ∉ cs.map Coll.name) :
    ((cs.map (fun c => (collRefresh w e c).2)).flatten).count (HookEv.added name) = 0 := by
  induction cs with
  | nil => rfl
  | cons c rest ih =>
    simp only [List.map_cons, List.mem_cons] at h
    push_neg at h
    simp only [List.map_cons, List.flatten_cons, List.count_append]
    rw [ih h.2]
    have hcount : ((collRefresh w e c).2).count (HookEv.added name) = 0 := by
      unfold collRefresh collAdd collRemove
      split <;> split
      · rfl
      · show List.count (HookEv.added name) [HookEv.added c.name] = 0
        rw [List.count_eq_zero]
        simp only [List.mem_singleton, HookEv.added.injEq]
        exact h.1
      · show List.count (HookEv.added name) [HookEv.removed c.name] = 0
        rw [List.count_eq_zero]
        simp
      · rfl
    rw [hcount]

theorem count_added_flatten (w : Nat → PropKeys) (e : Nat) (cs : List Coll) (name : String)
    (hnd : (cs.map Coll.name).Nodup) :
    ((cs.map (fun c => (collRefresh w e c).2)).flatten).count (HookEv.added name)
      = (match cs.find? (fun c => decide (c.name = name)) with
         | some c => if testFn c.req (w e) && !setHas c.members e then 1 else 0
         | none => 0) := by
  induction cs with
  | nil => rfl
  | cons c rest ih =>
    simp only [List.map_cons, List.nodup_cons] at hnd
    simp only [List.map_cons, List.flatten_cons, List.count_append]
    by_cases hn : c.name = name
    · rw [List.find?_cons_of_pos _ (by simp [hn])]
      rw [count_added_flatten_notmem w e rest name (hn ▸ hnd.1)]
      have hhead : ((collRefresh w e c).2).count (HookEv.added name)
          = if testFn c.req (w e) && !setHas c.members e then 1 else 0 := by
        unfold collRefresh collAdd collRemove
        by_cases ht : testFn c.req (w e) = true
        · rw [if_pos ht, ht]
          by_cases hh : setHas c.members e = true
          · rw [if_pos hh, hh]
            rfl
          · rw [Bool.not_eq_true] at hh
            rw [if_neg (by rw [hh]; simp), hh]
            show List.count (HookEv.added name) [HookEv.added c.name] = _
            rw [hn]
            simp
        · rw [Bool.not_eq_true] at ht
          rw [if_neg (by rw [ht]; simp), ht]
          simp only [Bool.false_and, Bool.false_eq_true, if_false]
          split
          · show List.count (HookEv.added name) [HookEv.removed c.name] = 0
            rw [List.count_eq_zero]
            simp
          · rfl
      rw [hhead]
      simp
    · rw [List.find?_cons_of_neg _ (by simp [hn])]
      have hhead : ((collRefresh w e c).2).count (HookEv.added name) = 0 := by
        unfold collRefresh collAdd collRemove
        split <;> split
        · rfl
        · show List.count (HookEv.added name) [HookEv.added c.name] = 0
          rw [List.count_eq_zero]
          simp only [List.mem_singleton, HookEv.added.injEq]
          exact fun hEq => hn hEq.symm
        · show List.count (HookEv.added name) [HookEv.removed c.name] = 0
          rw [List.count_eq_zero]
          simp
        · rfl
      rw [hhead, ih hnd.2]
      simp

/-- C7: two consecutive qualifying recompute signals for the same entity
(no disqualifying mutation in between) leave the collection with exactly
one occurrence of the entity and fire `onEntityAdded` exactly once. -/
theorem C7_addEntity_idempotent (s : Sys) (w : Nat → PropKeys) (e : Nat) (cs : List Coll)
    (c : Coll) (cname : String)
    (hc : s.colls = some cs) (hnd : (cs.map Coll.name).Nodup)
    (hfind : cs.find? (fun d => decide (d.name = cname)) = some c)
    (ht : testFn c.req (w e) = true) (hm : setHas c.members e = false) :
    ((sysRefresh w e (sysRefresh w e s).1).1.membCount cname e = 1)
    ∧ (((sysRefresh w e s).2
        ++ (sysRefresh w e (sysRefresh w e s).1).2).count (HookEv.added cname) = 1) := by
  have htwice := sysRefresh_twice w e s
  have hr1colls : (sysRefresh w e s).1.colls
      = some (cs.map (fun d => (collRefresh w e d).1)) := sysRefresh_colls_map w e s cs hc
  constructor
  · rw [htwice]
    unfold Sys.membCount
    rw [hr1colls]
    dsimp only
    rw [find?_name_map cs _ (fun d => collRefresh_name w e d) cname, hfind]
    show ((collRefresh w e c).1).members.count e = 1
    unfold collRefresh collAdd
    rw [if_pos ht, if_neg (by rw [hm]; simp)]
    show (setAdd c.members e).count e = 1
    refine count_setAdd_self c.members e (fun hmem => ?hm2)
    rw [← setHas_iff] at hmem
    rw [hm] at hmem
    cases hmem
  · rw [htwice]
    simp only [List.count_append]
    have h2 : ((sysRefresh w e s, ([] : List HookEv)).2).count (HookEv.added cname) = 0 := rfl
    have hr1evs : (sysRefresh w e s).2
        = (cs.map (fun d => (collRefresh w e d).2)).flatten := by
      unfold sysRefresh
      rw [hc]
      dsimp only
      rw [List.map_map]
      rfl
    rw [hr1evs, count_added_flatten w e cs cname hnd, hfind]
    show (if testFn c.req (w e) && !setHas c.members e then 1 else 0)
        + List.count (HookEv.added cname) ([] : List HookEv) = 1
    rw [ht, hm]
    rfl

/-- Concrete data witnessing C7: a system with an empty collection
`"q"` requiring key `"x"`, and an entity that has that key. -/
def csC7 : List Coll := [⟨"q", [Constraint.key "x"], []⟩]

def sysC7 : Sys := { colls := some csC7 }

/-- Witness for C7 at the concrete system. -/
theorem C7_addEntity_idempotent_witness :
    (sysC7.colls = some csC7) ∧ (csC7.map Coll.name).Nodup
    ∧ (csC7.find? (fun d => decide (d.name = "q")) = some ⟨"q", [Constraint.key "x"], []⟩)
    ∧ (testFn [Constraint.key "x"] ((fun _ => ["x"]) 3) = true)
    ∧ (setHas (Coll.members ⟨"q", [Constraint.key "x"], []⟩) 3 = false)
    ∧ ((sysRefresh (fun _ => ["x"]) 3 (sysRefresh (fun _ => ["x"]) 3 sysC7).1).1.membCount
        "q" 3 = 1)
    ∧ (((sysRefresh (fun _ => ["x"]) 3 sysC7).2
        ++ (sysRefresh (fun _ => ["x"]) 3 (sysRefresh (fun _ => ["x"]) 3 sysC7).1).2).count
          (HookEv.added "q") = 1) :=
  ⟨rfl, by decide, rfl, by decide, by decide,
    (C7_addEntity_idempotent sysC7 (fun _ => ["x"]) 3 csC7 ⟨"q", [Constraint.key "x"], []⟩
      "q" rfl (by decide) rfl (by decide) (by decide)).1,
    (C7_addEntity_idempotent sysC7 (fun _ => ["x"]) 3 csC7 ⟨"q", [Constraint.key "x"], []⟩
      "q" rfl (by decide) rfl (by decide) (by decide)).2⟩

/-! ## C9: the test-function cache is keyed by list identity

`System._getTestFunction` caches its compiled predicate in a JS `Map`
keyed by the requirement-list object itself.  A requirement list is
modelled as its object identity `rid` together with its contents; the
`Map` is an insertion-ordered association list over identities. -/

/-- A requirement-list object: its reference identity and its contents. -/
structure ReqList where
  rid : Nat
  constraints : List Constraint

/-- `System._testFunctionCache`: requirement-list identity → the `tests`
closure list the compiled predicate closes over. -/
abbrev TestCache := List (Nat × List (PropKeys → Bool))

/-- `System._getTestFunction(requirementList)`: return the cached entry
when the very same list object was compiled before; otherwise compile
(`map` + `filter`), store under the list's identity, and return. -/
def getTestFunction (cache : TestCache) (r : ReqList) :
    List (PropKeys → Bool) × TestCache :=
  match cache.lookup r.rid with
  | some t => (t, cache)
  | none =>
    let t := compileTests r.constraints
    (t, cache ++ [(r.rid, t)])

/-- The body of the returned `testFn`: `tests.every(test => test(entity))`. -/
def applyTests (ts : List (PropKeys → Bool)) (ks : PropKeys) : Bool :=
  ts.all (fun t => t ks)

theorem lookup_append_of_none {β} (l1 l2 : List (Nat × β)) (k : Nat)
    (h : l1.lookup k = none) : (l1 ++ l2).lookup k = l2.lookup k := by
  induction l1 with
  | nil => rfl
  | cons p rest ih =>
    rw [List.cons_append]
    by_cases hk : (k == p.1) = true
    · exfalso
      have : ((p.1, p.2) :: rest).lookup k = some p.2 := by
        show List.lookup k ((p.1, p.2) :: rest) = some p.2
        rw [List.lookup_cons]
        simp [hk]
      rw [show ((p.1, p.2) : Nat × β) = p from rfl] at this
      rw [this] at h
      cases h
    · have h' : rest.lookup k = none := by
        have hc : ((p.1, p.2) :: rest).lookup k = rest.lookup k := by
          show List.lookup k ((p.1, p.2) :: rest) = _
          rw [List.lookup_cons]
          simp [hk]
        rw [show ((p.1, p.2) : Nat × β) = p from rfl] at hc
        rw [hc] at h
        exact h
      show List.lookup k (p :: (rest ++ l2)) = _
      rw [show (p : Nat × β) = (p.1, p.2) from rfl, List.lookup_cons]
      simp only [hk]
      exact ih h'

/-- C9: `_getTestFunction` caches by the list object's identity, not its
contents — re-supplying the same list object returns the cached predicate
and leaves the cache unchanged; a list object whose identity is not
cached (even one with identical contents) is compiled anew, growing the
cache; and the compiled predicate is the logical AND of all constraints'
individual results on the entity. -/
theorem C9_test_function_cache (cache : TestCache) (r r' : ReqList) (ks : PropKeys)
    (hfresh : cache.lookup r'.rid = none) (hsame : r'.constraints = r.constraints) :
    (getTestFunction ((getTestFunction cache r).2) r = getTestFunction cache r)
    ∧ (((getTestFunction cache r').2).length = cache.length + 1)
    ∧ (applyTests ((getTestFunction cache r').1) ks
        = r.constraints.all (evalConstraint ks)) := by
  refine ⟨?reuse, ?grow, ?and⟩
  case reuse =>
    cases hl : cache.lookup r.rid with
    | some t =>
      have h1 : getTestFunction cache r = (t, cache) := by
        unfold getTestFunction
        rw [hl]
      rw [h1]
      exact h1
    | none =>
      have h1 : getTestFunction cache r
          = (compileTests r.constraints,
             cache ++ [(r.rid, compileTests r.constraints)]) := by
        unfold getTestFunction
        rw [hl]
      rw [h1]
      unfold getTestFunction
      rw [lookup_append_of_none _ _ _ hl]
      show (match List.lookup r.rid [(r.rid, compileTests r.constraints)] with
        | some t => (t, cache ++ [(r.rid, compileTests r.constraints)])
        | none => _) = _
      rw [List.lookup_cons]
      simp
  case grow =>
    unfold getTestFunction
    rw [hfresh]
    simp
  case and =>
    unfold getTestFunction
    rw [hfresh]
    show testFn r'.constraints ks = _
    rw [testFn_eq_all, hsame]

/-- Witness for C9: an empty cache, a list object `0` with constraint
`["a"]`, and a distinct list object `1` with identical contents. -/
theorem C9_test_function_cache_witness :
    (([] : TestCache).lookup (ReqList.rid ⟨1, [Constraint.key "a"]⟩) = none)
    ∧ (ReqList.constraints ⟨1, [Constraint.key "a"]⟩
        = ReqList.constraints ⟨0, [Constraint.key "a"]⟩)
    ∧ ((getTestFunction ((getTestFunction [] ⟨0, [Constraint.key "a"]⟩).2)
          ⟨0, [Constraint.key "a"]⟩ = getTestFunction [] ⟨0, [Constraint.key "a"]⟩)
      ∧ (((getTestFunction [] ⟨1, [Constraint.key "a"]⟩).2).length
          = ([] : TestCache).length + 1)
      ∧ (applyTests ((getTestFunction [] ⟨1, [Constraint.key "a"]⟩).1) ["a"]
          = (ReqList.constraints ⟨0, [Constraint.key "a"]⟩).all (evalConstraint ["a"]))) :=
  ⟨rfl, rfl, C9_test_function_cache [] ⟨0, [Constraint.key "a"]⟩ ⟨1, [Constraint.key "a"]⟩
    ["a"] rfl rfl⟩

/-! ## C10: `removeSystem` with an unregistered system

`Engine.removeSystem` does `splice(this._systems.indexOf(system), 1)`.
`Array.prototype.indexOf` yields `-1` for an absent element, and
`splice(-1, 1)` counts from the end, deleting the array's last element.
`Engine.addSystem` pushes and then re-sorts the list by ascending
priority (`Array.prototype.sort` is stable). -/

namespace Registry

/-- A registered system, identified by reference, with its priority. -/
structure RSys where
  sid : Nat
  priority : Nat
deriving DecidableEq

/-- `Engine.addSystem`: push onto `_systems`, then sort by priority
(ascending, stable). -/
def addSystem (ss : List RSys) (s : RSys) : List RSys :=
  (ss ++ [s]).insertionSort (fun a b => a.priority ≤ b.priority)

/-- `Array.prototype.splice(start, 1)`: a negative `start` counts from
the end (clamped at 0), and one element at the resulting position is
removed. -/
def spliceOne (l : List RSys) (start : Int) : List RSys :=
  l.eraseIdx (if start < 0 then (l.length + start).toNat else start.toNat)

/-- `Engine.removeSystem`: `splice(indexOf(system), 1)` — `indexOf`
yields `-1` when the system was never registered. -/
def removeSystem (ss : List RSys) (s : RSys) : List RSys :=
  spliceOne ss
    (match ss.indexOf? s with
     | some i => (i : Int)
     | none => -1)

end Registry

/-- C10 counterexample: systems `X` (priority 10, added first) and `Y`
(priority 1, added second) sort to `[Y, X]`; removing a never-registered
system `Z` deletes `X` — the last element of the priority-sorted list —
while `Y`, the most recently appended system, survives.  This refutes
the claim that the most recently appended registered system is the one
removed. -/
theorem C10_counterexample :
    (Registry.addSystem (Registry.addSystem [] ⟨0, 10⟩) ⟨1, 1⟩
      = [⟨1, 1⟩, ⟨0, 10⟩])
    ∧ (Registry.removeSystem (Registry.addSystem (Registry.addSystem [] ⟨0, 10⟩) ⟨1, 1⟩)
        ⟨2, 5⟩ = [⟨1, 1⟩])
    ∧ ((⟨1, 1⟩ : Registry.RSys)
        ∈ Registry.removeSystem (Registry.addSystem (Registry.addSystem [] ⟨0, 10⟩) ⟨1, 1⟩)
          ⟨2, 5⟩)
    ∧ ((⟨0, 10⟩ : Registry.RSys)
        ∉ Registry.removeSystem (Registry.addSystem (Registry.addSystem [] ⟨0, 10⟩) ⟨1, 1⟩)
          ⟨2, 5⟩) := by
  refine ⟨?s, ?r, ?y, ?x⟩ <;> decide

/-- C10 (amended): for every engine whose system list is non-empty,
removing a never-registered system does not leave the list unchanged:
`indexOf` yields `-1`, which `splice` interprets as the last position,
so the last system of the priority-sorted registry is silently removed
(the most recently appended one only when it sorted last). -/
theorem eraseIdx_last_eq_dropLast (l : List Registry.RSys) :
    l.eraseIdx (l.length - 1) = l.dropLast := by
  induction l with
  | nil => rfl
  | cons a t ih =>
    cases t with
    | nil => rfl
    | cons b t2 =>
      show (a :: b :: t2).eraseIdx ((b :: t2).length) = _
      simp only [List.eraseIdx_cons_succ, List.dropLast_cons₂]
      exact congrArg (a :: ·) ih

theorem C10_remove_unregistered_drops_last (ss : List Registry.RSys) (s : Registry.RSys)
    (hne : ss ≠ []) (habs : s ∉ ss) :
    Registry.removeSystem ss s = ss.dropLast
    ∧ (Registry.removeSystem ss s).length + 1 = ss.length := by
  have hidx : ss.indexOf? s = none := by
    rw [List.indexOf?_eq_none_iff]
    intro x hx hbeq
    exact habs (beq_iff_eq.mp hbeq ▸ hx)
  have herase : Registry.removeSystem ss s = ss.eraseIdx (ss.length - 1) := by
    unfold Registry.removeSystem Registry.spliceOne
    rw [hidx]
    show ss.eraseIdx
      (if (-1 : Int) < 0 then ((ss.length : Int) + (-1 : Int)).toNat
       else (-1 : Int).toNat) = _
    rw [if_pos (by norm_num)]
    congr 1
    omega
  rw [herase, eraseIdx_last_eq_dropLast]
  refine ⟨rfl, ?len⟩
  rw [List.length_dropLast]
  have : 0 < ss.length := List.length_pos.mpr hne
  omega

/-- Witness for the amended C10 at a concrete two-system registry. -/
theorem C10_remove_unregistered_drops_last_witness :
    (([⟨0, 1⟩, ⟨1, 2⟩] : List Registry.RSys) ≠ [])
    ∧ ((⟨9, 9⟩ : Registry.RSys) ∉ ([⟨0, 1⟩, ⟨1, 2⟩] : List Registry.RSys))
    ∧ (Registry.removeSystem [⟨0, 1⟩, ⟨1, 2⟩] ⟨9, 9⟩
        = ([⟨0, 1⟩, ⟨1, 2⟩] : List Registry.RSys).dropLast)
    ∧ ((Registry.removeSystem [⟨0, 1⟩, ⟨1, 2⟩] ⟨9, 9⟩).length + 1
        = ([⟨0, 1⟩, ⟨1, 2⟩] : List Registry.RSys).length) :=
  ⟨by decide, by decide,
    (C10_remove_unregistered_drops_last [⟨0, 1⟩, ⟨1, 2⟩] ⟨9, 9⟩ (by decide) (by decide)).1,
    (C10_remove_unregistered_drops_last [⟨0, 1⟩, ⟨1, 2⟩] ⟨9, 9⟩ (by decide) (by decide)).2⟩

/-! ## C8: watched-key change detection

The watched-property registry lives on the engine
(`Engine.addWatchedProperty` / `removeWatchedProperty` /
`isWatchedProperty`, `src/unnamed/part_002`).  The proxy `set` trap that
consults it belongs to the latest `entity.ts` revision, which is not in
the repository (only older revisions of `EntityProxyHandler.set`, without
watched-key support, are); it is modelled from the spec below. -/

namespace WatchedKeys

/-- The engine-side watched-property registry. -/
structure PEng where
  watched : List String := []

/-- `Engine.addWatchedProperty(prop)` (`src/unnamed/part_002`): watched
properties trigger `_markEntityChanged` on every value set, even when the
value is unchanged. -/
def addWatchedProperty (g : PEng) (k : String) : PEng :=
  { g with watched := setAdd g.watched k }

/-- `Engine.isWatchedProperty(prop)` (`src/unnamed/part_002`). -/
def isWatchedProperty (g : PEng) (k : String) : Bool :=
  setHas g.watched k

/-- An entity's own keyed record: component key → value. -/
structure PEnt where
  props : List (String × Nat) := []

/-- The raw keyed write underneath the proxy (`Reflect.set`). -/
def setAssoc (ps : List (String × Nat)) (k : String) (v : Nat) : List (String × Nat) :=
  if ps.any (fun p => decide (p.1 = k)) then
    ps.map (fun p => if p.1 = k then (k, v) else p)
  else ps ++ [(k, v)]

/-- Modelled from the spec: the latest `EntityProxyHandler.set` trap
(the `entity.ts` revision with watched-key support, missing from the
repository — only its engine-side registry, callers and tests are
present).  Per §4.1: setting a key determines "needs membership
recompute" as true iff the key is newly introduced (not previously
present) OR the key is registered as watched on the owning engine; the
underlying write is performed, and the engine — when attached — receives
a change signal exactly when recompute is needed.  (Reserved internal
symbol keys, which never trigger recompute, are not representable here;
the `deleteVoidProps` redirect is outside this claim.)  Returns the
updated entity and whether a change signal was sent. -/
def entitySet (geng : Option PEng) (ent : PEnt) (k : String) (v : Nat) : PEnt × Bool :=
  let isPresent := (ent.props.lookup k).isSome
  let watched := match geng with
    | some g => isWatchedProperty g k
    | none => false
  let needUpdate := !isPresent || watched
  ({ props := setAssoc ent.props k v }, needUpdate && geng.isSome)

end WatchedKeys

/-- C8: on an engine-owned entity, reassigning a watched key — even to a
value equal to its current one — sends a recompute signal to the engine,
while reassigning an unwatched key that is already present (not newly
introduced, not deleted) sends no signal. -/
theorem C8_watched_key_semantics (g : WatchedKeys.PEng) (ent : WatchedKeys.PEnt)
    (k k' : String) (v v' : Nat)
    (hw : WatchedKeys.isWatchedProperty g k = true)
    (hcur : ent.props.lookup k = some v)
    (hnw : WatchedKeys.isWatchedProperty g k' = false)
    (hpres : (ent.props.lookup k').isSome = true) :
    ((WatchedKeys.entitySet (some g) ent k v).2 = true)
    ∧ ((WatchedKeys.entitySet (some g) ent k' v').2 = false) := by
  constructor
  · show ((!(ent.props.lookup k).isSome || WatchedKeys.isWatchedProperty g k)
      && (some g).isSome) = true
    rw [hw]
    simp
  · rw [Bool.eq_false_iff]
    show ¬ ((!(ent.props.lookup k').isSome || WatchedKeys.isWatchedProperty g k')
      && (some g).isSome) = true
    rw [hnw, hpres]
    simp

/-- Witness for C8: watched key `"w"` reassigned to its current value
signals; unwatched, already-present key `"u"` reassigned to a new value
does not. -/
theorem C8_watched_key_semantics_witness :
    (WatchedKeys.isWatchedProperty ⟨["w"]⟩ "w" = true)
    ∧ (WatchedKeys.PEnt.props ⟨[("w", 5), ("u", 7)]⟩ |>.lookup "w") = some 5
    ∧ (WatchedKeys.isWatchedProperty ⟨["w"]⟩ "u" = false)
    ∧ ((WatchedKeys.PEnt.props ⟨[("w", 5), ("u", 7)]⟩ |>.lookup "u").isSome = true)
    ∧ ((WatchedKeys.entitySet (some ⟨["w"]⟩) ⟨[("w", 5), ("u", 7)]⟩ "w" 5).2 = true)
    ∧ ((WatchedKeys.entitySet (some ⟨["w"]⟩) ⟨[("w", 5), ("u", 7)]⟩ "u" 9).2 = false) :=
  ⟨by decide, by decide, by decide, by decide,
    (C8_watched_key_semantics ⟨["w"]⟩ ⟨[("w", 5), ("u", 7)]⟩ "w" "u" 5 9 (by decide)
      (by decide) (by decide) (by decide)).1,
    (C8_watched_key_semantics ⟨["w"]⟩ ⟨[("w", 5), ("u", 7)]⟩ "w" "u" 5 9 (by decide)
      (by decide) (by decide) (by decide)).2⟩

/-! ## C5: re-adopting an entity into a second engine

The `Engine.addEntity` revision that assigns `ENTITY_ID` identifiers is
not in the repository — only its callers (`get_id` in
`src/unnamed/part_000`) and its tests (the "Entity ID" spec in
`src/unnamed/part_009`) are — so the adopting step is modelled from the
spec.  Entities and engines are world-level indices here, since one
entity can pass between two engines. -/

namespace MultiEngine

/-- A system's membership set, as seen from the engine registry. -/
structure MSys where
  members : List Nat := []
deriving DecidableEq

/-- One engine: its id counter, live set, and registered systems. -/
structure MEngine where
  counter : Nat := 0
  live : List Nat := []
  systems : List MSys := []
deriving DecidableEq

/-- One entity's reserved bookkeeping: owning engine and identifier. -/
structure MEntity where
  owner : Option Nat := none
  id : Option Nat := none
deriving DecidableEq

/-- All engines and entities. -/
structure MWorld where
  engines : List MEngine
  entities : List MEntity
deriving DecidableEq

/-- `Engine.removeEntity` as used for detachment (`src/unnamed/part_002`):
drop the entity from the engine's live set and sweep it from every
registered system. -/
def detachEntity (w : MWorld) (a : Nat) (e : Nat) : MWorld :=
  match w.engines[a]? with
  | some A =>
    let A' : MEngine :=
      { counter := A.counter, live := setDelete A.live e,
        systems := A.systems.map (fun s => { members := setDelete s.members e }) }
    { w with engines := w.engines.set a A' }
  | none => w

/-- The adopting half of `addEntity`: assign ownership, draw a fresh
identifier from the adopting engine's counter (the first entity gets
id 1), and insert into the live set. -/
def adoptEntity (w : MWorld) (g : Nat) (e : Nat) : MWorld :=
  match w.engines[g]?, w.entities[e]? with
  | some G, some ent =>
    let G' : MEngine :=
      { counter := G.counter + 1, live := setAdd G.live e, systems := G.systems }
    let ent' : MEntity := { owner := some g, id := some (G.counter + 1) }
    { w with engines := w.engines.set g G', entities := w.entities.set e ent' }
  | _, _ => w

/-- Modelled from the spec: the latest `Engine.addEntity` — the revision
defining `ENTITY_ID`, missing from the repository.  Per §3/§4.4:
re-adopting an entity already owned by another engine first detaches it
from that engine (removing it from its live set and all of its systems),
then assigns ownership and a fresh monotonically assigned identifier from
the adopting engine; an entity already owned by the adopting engine keeps
its identifier. -/
def addEntity (w : MWorld) (g : Nat) (e : Nat) : MWorld :=
  match (w.entities[e]?).bind MEntity.owner with
  | some a => if a = g then w else adoptEntity (detachEntity w a e) g e
  | none => adoptEntity w g e

end MultiEngine

/-- C5: registering an entity owned by engine `a` into a different engine
`b` detaches it from `a` — it leaves `a`'s live set and every one of
`a`'s systems — and re-registers it under `b` with the fresh identifier
`b.counter + 1` drawn from `b`'s counter. -/
theorem C5_readopt_detach_and_fresh_id (w : MultiEngine.MWorld) (a b e : Nat)
    (ent : MultiEngine.MEntity) (A B : MultiEngine.MEngine)
    (hent : w.entities[e]? = some ent) (howner : ent.owner = some a) (hab : a ≠ b)
    (hA : w.engines[a]? = some A) (hB : w.engines[b]? = some B) :
    (((MultiEngine.addEntity w b e).entities[e]?).map MultiEngine.MEntity.owner
        = some (some b))
    ∧ (((MultiEngine.addEntity w b e).entities[e]?).map MultiEngine.MEntity.id
        = some (some (B.counter + 1)))
    ∧ (((MultiEngine.addEntity w b e).engines[a]?).map
        (fun A' => setHas A'.live e) = some false)
    ∧ (((MultiEngine.addEntity w b e).engines[a]?).map
        (fun A' => A'.systems.all (fun s => !setHas s.members e)) = some true) := by
  have hb_lt : b < w.engines.length := (List.getElem?_eq_some.mp hB).1
  have ha_lt : a < w.engines.length := (List.getElem?_eq_some.mp hA).1
  have he_lt : e < w.entities.length := (List.getElem?_eq_some.mp hent).1
  have hstep : MultiEngine.addEntity w b e
      = MultiEngine.adoptEntity (MultiEngine.detachEntity w a e) b e := by
    unfold MultiEngine.addEntity
    rw [hent]
    show (match ent.owner with
      | some a => if a = b then w
          else MultiEngine.adoptEntity (MultiEngine.detachEntity w a e) b e
      | none => MultiEngine.adoptEntity w b e) = _
    rw [howner]
    show (if a = b then w
      else MultiEngine.adoptEntity (MultiEngine.detachEntity w a e) b e) = _
    rw [if_neg hab]
  set A' : MultiEngine.MEngine :=
    { A with live := setDelete A.live e,
             systems := A.systems.map (fun s =>
               { s with members := setDelete s.members e }) } with hA'
  have hdet : MultiEngine.detachEntity w a e
      = { w with engines := w.engines.set a A' } := by
    unfold MultiEngine.detachEntity
    rw [hA]
  have hdet_engines_b : (MultiEngine.detachEntity w a e).engines[b]? = some B := by
    rw [hdet]
    show (w.engines.set a A')[b]? = some B
    rw [List.getElem?_set_ne (fun hEq => hab hEq)]
    exact hB
  have hdet_entities : (MultiEngine.detachEntity w a e).entities = w.entities := by
    rw [hdet]
  have hadopt : MultiEngine.adoptEntity (MultiEngine.detachEntity w a e) b e
      = { MultiEngine.detachEntity w a e with
          engines := (MultiEngine.detachEntity w a e).engines.set b
            { B with counter := B.counter + 1, live := setAdd B.live e },
          entities := (MultiEngine.detachEntity w a e).entities.set e
            { ent with owner := some b, id := some (B.counter + 1) } } := by
    unfold MultiEngine.adoptEntity
    rw [hdet_engines_b, hdet_entities, hent]
  have hlen_ent : (MultiEngine.detachEntity w a e).entities.length
      = w.entities.length := by
    rw [hdet_entities]
  have hlen_eng : (MultiEngine.detachEntity w a e).engines.length
      = w.engines.length := by
    rw [hdet]
    show (w.engines.set a A').length = _
    rw [List.length_set]
  have hfin_ent : (MultiEngine.addEntity w b e).entities[e]?
      = some { ent with owner := some b, id := some (B.counter + 1) } := by
    rw [hstep, hadopt]
    show ((MultiEngine.detachEntity w a e).entities.set e _)[e]? = _
    rw [List.getElem?_set_eq (by rw [hlen_ent]; exact he_lt)]
  have hfin_eng_a : (MultiEngine.addEntity w b e).engines[a]? = some A' := by
    rw [hstep, hadopt]
    show ((MultiEngine.detachEntity w a e).engines.set b _)[a]? = _
    rw [List.getElem?_set_ne (fun hEq => hab hEq.symm), hdet]
    show (w.engines.set a A')[a]? = _
    rw [List.getElem?_set_eq ha_lt]
  refine ⟨?own, ?id, ?live, ?sys⟩
  case own => rw [hfin_ent]; rfl
  case id => rw [hfin_ent]; rfl
  case live =>
    rw [hfin_eng_a]
    show some (setHas (setDelete A.live e) e) = some false
    rw [setHas_setDelete_self]
  case sys =>
    rw [hfin_eng_a]
    show some ((A.systems.map (fun s =>
      ({ s with members := setDelete s.members e } : MultiEngine.MSys))).all
        (fun s => !setHas s.members e)) = some true
    rw [List.all_map]
    refine congrArg some (List.all_eq_true.mpr (fun s _ => ?hs))
    show (!setHas (setDelete s.members e) e) = true
    rw [setHas_setDelete_self]
    rfl

/-- Witness for C5: the spec's end-to-end scenario — engine `0` adopts
entity `0` (id 1) then entity `1` (id 2); engine `1` then re-adopts
entity `1`, which gets fresh id `1` and vanishes from engine `0`. -/
theorem C5_readopt_detach_and_fresh_id_witness :
    (((MultiEngine.addEntity (MultiEngine.addEntity
        ⟨[⟨0, [], []⟩, ⟨0, [], []⟩], [⟨none, none⟩, ⟨none, none⟩]⟩ 0 0) 0 1).entities[1]?).map
          MultiEngine.MEntity.id = some (some 2))
    ∧ (((MultiEngine.addEntity (MultiEngine.addEntity (MultiEngine.addEntity
        ⟨[⟨0, [], []⟩, ⟨0, [], []⟩], [⟨none, none⟩, ⟨none, none⟩]⟩ 0 0) 0 1) 1 1).entities[1]?).map
          MultiEngine.MEntity.owner = some (some 1))
    ∧ (((MultiEngine.addEntity (MultiEngine.addEntity (MultiEngine.addEntity
        ⟨[⟨0, [], []⟩, ⟨0, [], []⟩], [⟨none, none⟩, ⟨none, none⟩]⟩ 0 0) 0 1) 1 1).entities[1]?).map
          MultiEngine.MEntity.id = some (some 1))
    ∧ (((MultiEngine.addEntity (MultiEngine.addEntity (MultiEngine.addEntity
        ⟨[⟨0, [], []⟩, ⟨0, [], []⟩], [⟨none, none⟩, ⟨none, none⟩]⟩ 0 0) 0 1) 1 1).engines[0]?).map
          (fun A' => setHas A'.live 1) = some false)
    ∧ (((MultiEngine.addEntity (MultiEngine.addEntity (MultiEngine.addEntity
        ⟨[⟨0, [], []⟩, ⟨0, [], []⟩], [⟨none, none⟩, ⟨none, none⟩]⟩ 0 0) 0 1) 1 1).engines[0]?).map
          (fun A' => A'.systems.all (fun s => !setHas s.members 1)) = some true) :=
  ⟨by decide,
    (C5_readopt_detach_and_fresh_id (MultiEngine.addEntity (MultiEngine.addEntity
        ⟨[⟨0, [], []⟩, ⟨0, [], []⟩], [⟨none, none⟩, ⟨none, none⟩]⟩ 0 0) 0 1) 0 1 1
      ⟨some 0, some 2⟩ ⟨2, [0, 1], []⟩ ⟨0, [], []⟩
      (by decide) (by decide) (by decide) (by decide) (by decide)).1,
    (C5_readopt_detach_and_fresh_id (MultiEngine.addEntity (MultiEngine.addEntity
        ⟨[⟨0, [], []⟩, ⟨0, [], []⟩], [⟨none, none⟩, ⟨none, none⟩]⟩ 0 0) 0 1) 0 1 1
      ⟨some 0, some 2⟩ ⟨2, [0, 1], []⟩ ⟨0, [], []⟩
      (by decide) (by decide) (by decide) (by decide) (by decide)).2.1,
    (C5_readopt_detach_and_fresh_id (MultiEngine.addEntity (MultiEngine.addEntity
        ⟨[⟨0, [], []⟩, ⟨0, [], []⟩], [⟨none, none⟩, ⟨none, none⟩]⟩ 0 0) 0 1) 0 1 1
      ⟨some 0, some 2⟩ ⟨2, [0, 1], []⟩ ⟨0, [], []⟩
      (by decide) (by decide) (by decide) (by decide) (by decide)).2.2.1,
    (C5_readopt_detach_and_fresh_id (MultiEngine.addEntity (MultiEngine.addEntity
        ⟨[⟨0, [], []⟩, ⟨0, [], []⟩], [⟨none, none⟩, ⟨none, none⟩]⟩ 0 0) 0 1) 0 1 1
      ⟨some 0, some 2⟩ ⟨2, [0, 1], []⟩ ⟨0, [], []⟩
      (by decide) (by decide) (by decide) (by decide) (by decide)).2.2.2⟩

end Eaciest
